import Mathlib

/-!
Shallow embedding of the cooperative-task runtime in `src/__main__.py`
(module `boni-learns-python-curses`): the `Future` single-assignment result
cell, the `Task` coroutine wrapper, and the `EventLoop` scheduler.

Objects live on an explicit heap: each `Future`/`Task` is identified by a
natural-number id, and the heap maps ids to `FutureData`.  A wrapped
coroutine is modelled as a resume function `Except Exc Val → CoroRun`:
feeding `.ok v` models `gen.send(v)` and feeding `.error e` models
`gen.throw(e)`; the function returns the run of the generator body up to
its next suspension point (`yielded`), normal return (`returned`, which in
Python surfaces as `StopIteration(value)`), or an escaping exception
(`raised`).  Coroutine bodies and done-callbacks are opaque caller code,
so callbacks are identified by ids and their scheduling is recorded in an
observable log.
-/

/-- Values passed through futures and coroutines. -/
inductive Val where
  | none
  | int (n : Int)
  | fut (id : Nat)
deriving DecidableEq, Repr

/-- The Python exceptions that the runtime raises or routes:
`CancelledError`, `InvalidStateError`, `StopIteration`, `AssertionError`
(from the runtime's own `assert` statements), `ValueError` (from
`list.remove`), and opaque user exceptions raised by coroutine bodies. -/
inductive Exc where
  | cancelledError
  | invalidStateError
  | stopIteration
  | assertionError
  | valueError
  | userError (n : Nat)
deriving DecidableEq, Repr

/-- The `_FutureState` hierarchy: `_FutureWaiting`, its subclass
`_TaskCancelling`, `_FutureCancelled`, `_FutureException`, `_FutureResult`.
`taskCancelling` is a distinct state from `futureCancelled`: in the source
`_TaskCancelling` subclasses `_FutureWaiting`, not `_FutureCancelled`. -/
inductive FState where
  | futureWaiting
  | taskCancelling
  | futureCancelled
  | futureException (e : Exc)
  | futureResult (v : Val)
deriving DecidableEq, Repr

/-- `Future.done`: `isinstance(state, _FutureCancelled | _FutureException |
_FutureResult)`.  `taskCancelling` is a `_FutureWaiting` subclass, hence
not done. -/
def FState.isDone : FState → Bool
  | .futureCancelled => true
  | .futureException _ => true
  | .futureResult _ => true
  | _ => false

/-- One resume of a wrapped generator: it either suspends yielding a
future id together with the continuation for the next resume, returns a
final value, or lets an exception escape. -/
inductive CoroRun where
  | yielded (fid : Nat) (k : Except Exc Val → CoroRun)
  | returned (v : Val)
  | raised (e : Exc)

/-- The fields `Task` adds on top of `Future`: the wrapped coroutine
(as its current resume function `_coro`) and `_awaited_on`. -/
structure TaskData where
  coro : Except Exc Val → CoroRun
  awaitedOn : Option Nat

/-- Per-object heap record: the `_state`, the `_done_callbacks` list
(callbacks identified by ids, list order = registration order), and the
task-specific fields when the object is a `Task` rather than a plain
`Future`. -/
structure FutureData where
  state : FState
  doneCallbacks : List Nat
  task : Option TaskData

/-- First-match lookup in the heap. -/
def lookupFut : List (Nat × FutureData) → Nat → Option FutureData
  | [], _ => Option.none
  | p :: ps, fid => if p.1 = fid then some p.2 else lookupFut ps fid

/-- Overwrite the record stored under an id (mutating the object the id
references). -/
def updateFut : List (Nat × FutureData) → Nat → FutureData → List (Nat × FutureData)
  | [], _, _ => []
  | p :: ps, fid, d =>
    if p.1 = fid then (fid, d) :: updateFut ps fid d else p :: updateFut ps fid d

/-- The whole runtime state: the object heap, a fresh-id counter, and the
`EventLoop` singleton's fields (`_all_tasks`, `_send_ready_tasks`,
`_is_stopping`, `_is_waiting`, `_getch_future`, `_stdscr`).  The stream of
results the blocking `stdscr.getch()` would deliver is part of the world
(`Option.none` modelling a `KeyboardInterrupt` wake-up), and `callSoonLog`
records every `call_soon(callback, *args)` invocation for observation. -/
structure World where
  futures : List (Nat × FutureData)
  nextId : Nat
  allTasks : List Nat
  sendReadyTasks : List Nat
  isStopping : Bool
  isWaiting : Bool
  getchFuture : Option Nat
  stdscr : Bool
  inputs : List (Option Int)
  callSoonLog : List (Nat × List Val)

def World.find (w : World) (fid : Nat) : Option FutureData :=
  lookupFut w.futures fid

def World.setFut (w : World) (fid : Nat) (d : FutureData) : World :=
  { w with futures := updateFut w.futures fid d }

/-- `Future.done()`. -/
def Future.done (w : World) (fid : Nat) : Bool :=
  match w.find fid with
  | some d => d.state.isDone
  | Option.none => false

/-- `Future.cancelled()`: `isinstance(self._state, _FutureCancelled)`.
In particular a task in `_TaskCancelling` state is NOT cancelled. -/
def Future.cancelled (w : World) (fid : Nat) : Bool :=
  match w.find fid with
  | some d => d.state = FState.futureCancelled
  | Option.none => false

/-- `Future.result()`: the stored value if `_FutureResult`, re-raise the
stored exception if `_FutureException`, raise `CancelledError` if
`_FutureCancelled`, raise `InvalidStateError` otherwise (still waiting). -/
def Future.result (w : World) (fid : Nat) : Except Exc Val :=
  match w.find fid with
  | some d =>
    match d.state with
    | .futureResult v => .ok v
    | .futureException e => .error e
    | .futureCancelled => .error .cancelledError
    | _ => .error .invalidStateError
  | Option.none => .error .invalidStateError

/-- The generator produced by `EventLoop.call_soon`'s `wrapped_callback`:
its first `send(None)` calls the callback and returns (a zero-step
generator); throwing into it before it starts propagates the exception. -/
def wrappedCallback : Except Exc Val → CoroRun
  | .ok _ => .returned .none
  | .error e => .raised e

/-- `EventLoop.call_soon(callback, *args)`: wraps the callback as a
zero-step generator and submits it as a fresh task appended to
`_all_tasks`.  The `(callback, args)` pair is recorded in the observation
log. -/
def EventLoop.callSoon (w : World) (cb : Nat) (args : List Val) : World :=
  let tid := w.nextId
  { w with
    nextId := tid + 1
    futures := w.futures ++ [(tid, ⟨.futureWaiting, [], some ⟨wrappedCallback, Option.none⟩⟩)]
    allTasks := w.allTasks ++ [tid]
    callSoonLog := w.callSoonLog ++ [(cb, args)] }

/-- `Future._call_done_callbacks()`: `loop.call_soon(callback, self)` for
each callback in a snapshot (`copy()`) of `_done_callbacks`. -/
def Future.callDoneCallbacks (w : World) (fid : Nat) : World :=
  match w.find fid with
  | some d => d.doneCallbacks.foldl (fun acc cb => EventLoop.callSoon acc cb [.fut fid]) w
  | Option.none => w

/-- `Future.set_result(result)`: `InvalidStateError` if already done,
otherwise store `_FutureResult(result)` and schedule the callbacks. -/
def Future.setResult (w : World) (fid : Nat) (v : Val) : Except Exc World :=
  match w.find fid with
  | some d =>
    if d.state.isDone then .error .invalidStateError
    else .ok (Future.callDoneCallbacks (w.setFut fid { d with state := .futureResult v }) fid)
  | Option.none => .error .invalidStateError

/-- `Future.set_exception(exception)`: same shape as `set_result`. -/
def Future.setException (w : World) (fid : Nat) (e : Exc) : Except Exc World :=
  match w.find fid with
  | some d =>
    if d.state.isDone then .error .invalidStateError
    else .ok (Future.callDoneCallbacks (w.setFut fid { d with state := .futureException e }) fid)
  | Option.none => .error .invalidStateError

/-- `Future.cancel()` (the base-class implementation, also reached as
`super().cancel()` from `Task._step_coro`): no-op returning `False` when
already done, else transition to `_FutureCancelled`, schedule callbacks,
return `True`. -/
def Future.cancel (w : World) (fid : Nat) : Bool × World :=
  match w.find fid with
  | some d =>
    if d.state.isDone then (false, w)
    else (true, Future.callDoneCallbacks (w.setFut fid { d with state := .futureCancelled }) fid)
  | Option.none => (false, w)

/-- `Future.add_done_callback(callback)`: if already done, schedule the
callback immediately via `call_soon(callback)` — with NO arguments —
without storing it; otherwise append it to `_done_callbacks`. -/
def Future.addDoneCallback (w : World) (fid : Nat) (cb : Nat) : World :=
  match w.find fid with
  | some d =>
    if d.state.isDone then EventLoop.callSoon w cb []
    else w.setFut fid { d with doneCallbacks := d.doneCallbacks ++ [cb] }
  | Option.none => w

/-- `Future.remove_done_callback(callback)`: rebuild `_done_callbacks`
keeping entries that are not identical (`is not`) to the callback, and
return `len(new) - len(original)` — an `int`, the negated removal count. -/
def Future.removeDoneCallback (w : World) (fid : Nat) (cb : Nat) : Int × World :=
  match w.find fid with
  | some d =>
    let callbacks := d.doneCallbacks.filter (fun entry => entry ≠ cb)
    ((callbacks.length : Int) - (d.doneCallbacks.length : Int),
      w.setFut fid { d with doneCallbacks := callbacks })
  | Option.none => (0, w)

/-- `Task.cancel()` with the dynamic dispatch that `awaited_on.cancel()`
performs: on a plain `Future` the base `cancel` runs; on a `Task`, if not
done and not already `_TaskCancelling`, the state flips to
`_TaskCancelling` first ("Change state first to avoid infinite
recursion.") and the cancellation cascades to the awaited handle.  The
fuel bounds the cascade depth; each recursive call is preceded by flipping
one task to `_TaskCancelling`, so `heap size + 1` fuel always suffices. -/
def Task.cancelAux : Nat → World → Nat → Bool × World
  | 0, w, _ => (false, w)
  | Nat.succ fuel, w, fid =>
    match w.find fid with
    | Option.none => (false, w)
    | some d =>
      match d.task with
      | Option.none => Future.cancel w fid
      | some td =>
        if d.state.isDone then (false, w)
        else if d.state = FState.taskCancelling then (true, w)
        else
          let w1 := w.setFut fid { d with state := .taskCancelling }
          match td.awaitedOn with
          | Option.none => (true, w1)
          | some a => (true, (Task.cancelAux fuel w1 a).2)

/-- Virtual `cancel()` entry point on any heap object. -/
def cancelObj (w : World) (fid : Nat) : Bool × World :=
  Task.cancelAux (w.futures.length + 1) w fid

/-- `Task._is_send_ready()`: `False` when done; `True` when the state is
`_TaskCancelling`; `True` when `_awaited_on is None`; else
`awaited_on.done()`. -/
def Task.isSendReady (w : World) (fid : Nat) : Bool :=
  match w.find fid with
  | some d =>
    match d.task with
    | some td =>
      if d.state.isDone then false
      else if d.state = FState.taskCancelling then true
      else
        match td.awaitedOn with
        | Option.none => true
        | some a => Future.done w a
    | Option.none => false
  | Option.none => false

/-- `Task._step_coro(stepper)`: raise `StopIteration` if already done
(before touching the coroutine); otherwise run one resume.  A yield
stores the new awaited handle and returns normally; a generator return
(`StopIteration(value)`, including a bare raised `StopIteration`) stores
`_FutureResult` and re-raises `StopIteration`; an escaping
`CancelledError` runs the base-class `cancel` and raises `StopIteration`;
any other escaping exception is stored via `set_exception` and
`StopIteration` is raised.  An `InvalidStateError` out of the setters
would propagate to the caller. -/
def Task.stepCoro (w : World) (fid : Nat) (d : FutureData) (td : TaskData)
    (input : Except Exc Val) : Option Exc × World :=
  if d.state.isDone then (some .stopIteration, w)
  else
    match td.coro input with
    | .yielded a k =>
      (Option.none, w.setFut fid { d with task := some ⟨k, some a⟩ })
    | .returned v =>
      match Future.setResult w fid v with
      | .ok w1 => (some .stopIteration, w1)
      | .error e2 => (some e2, w)
    | .raised .stopIteration =>
      match Future.setResult w fid .none with
      | .ok w1 => (some .stopIteration, w1)
      | .error e2 => (some e2, w)
    | .raised .cancelledError =>
      (some .stopIteration, (Future.cancel w fid).2)
    | .raised e =>
      match Future.setException w fid e with
      | .ok w1 => (some .stopIteration, w1)
      | .error e2 => (some e2, w)

/-- `Task.send(None)`: if the state is exactly `_FutureCancelled`, throw
`CancelledError` into the coroutine (note: NOT when it is
`_TaskCancelling`); otherwise read the awaited handle — `assert
awaited_on.done()` fires when a handle exists but is not done — forward
its value into the coroutine, or `throw` its exception into it.  The
result is `(raised exception?, new world)`: `Option.none` means `send`
returned normally. -/
def Task.send (w : World) (fid : Nat) : Option Exc × World :=
  match w.find fid with
  | Option.none => (some .assertionError, w)
  | some d =>
    match d.task with
    | Option.none => (some .assertionError, w)
    | some td =>
      if d.state = FState.futureCancelled then
        Task.stepCoro w fid d td (.error .cancelledError)
      else
        match td.awaitedOn with
        | Option.none => Task.stepCoro w fid d td (.ok .none)
        | some a =>
          if Future.done w a then
            match Future.result w a with
            | .ok v => Task.stepCoro w fid d td (.ok v)
            | .error e => Task.stepCoro w fid d td (.error e)
          else (some .assertionError, w)

/-- Python `list.remove`: drop the first occurrence, `ValueError` when
absent. -/
def listRemove : List Nat → Nat → Option (List Nat)
  | [], _ => Option.none
  | x :: xs, t => if x = t then some xs else (listRemove xs t).map (x :: ·)

/-- Body of `EventLoop._step_send_ready_tasks`: step each task of the
snapshot once; `StopIteration` removes the task from `_all_tasks`
(`ValueError` if it is not there); any other exception propagates. -/
def stepTasksAux : World → List Nat → Option Exc × World
  | w, [] => (Option.none, w)
  | w, t :: rest =>
    match Task.send w t with
    | (Option.none, w1) => stepTasksAux w1 rest
    | (some Exc.stopIteration, w1) =>
      match listRemove w1.allTasks t with
      | some l => stepTasksAux { w1 with allTasks := l } rest
      | Option.none => (some .valueError, w1)
    | (some e, w1) => (some e, w1)

/-- `EventLoop._step_send_ready_tasks`: iterate over `cut(...)` — a copy
of `_send_ready_tasks` taken after clearing the field. -/
def EventLoop.stepSendReadyTasks (w : World) : Option Exc × World :=
  stepTasksAux { w with sendReadyTasks := [] } w.sendReadyTasks

/-- Outcome of one `EventLoop._set_getch_result` call; `blocked` models
`stdscr.getch()` blocking forever because no further input arrives. -/
inductive GetchStep where
  | blocked
  | stepped (raised : Option Exc) (w : World)

/-- `EventLoop._set_getch_result`: assert `stdscr` is open; perform the
blocking read with `_is_waiting` set around it; a `KeyboardInterrupt`
returns with no result (the outstanding future stays); otherwise resolve
the outstanding getch future, if any, and clear the slot. -/
def EventLoop.setGetchResult (w : World) : GetchStep :=
  if !w.stdscr then .stepped (some .assertionError) w
  else
    match w.inputs with
    | [] => .blocked
    | i :: rest =>
      let w1 := { w with inputs := rest, isWaiting := false }
      match i with
      | Option.none => .stepped Option.none w1
      | some n =>
        match w1.getchFuture with
        | Option.none => .stepped Option.none { w1 with getchFuture := Option.none }
        | some f =>
          match Future.setResult w1 f (.int n) with
          | .ok w2 => .stepped Option.none { w2 with getchFuture := Option.none }
          | .error e => .stepped (some e) w1

/-- The code of `EventLoop.getch` up to its `yield future`: return the
outstanding `_getch_future` if one exists, else create a fresh pending
future, record it as outstanding, and yield it. -/
def EventLoop.getchStart (w : World) : Nat × World :=
  match w.getchFuture with
  | some f => (f, w)
  | Option.none =>
    let f := w.nextId
    (f,
      { w with
        nextId := f + 1
        futures := w.futures ++ [(f, ⟨.futureWaiting, [], Option.none⟩)]
        getchFuture := some f })

/-- Result of a bounded run of `EventLoop.run_until_complete`. -/
inductive RunResult where
  | completed (r : Except Exc Val) (w : World)
  | stopped (w : World)
  | crashed (e : Exc) (w : World)
  | blocked (w : World)
  | fuelOut (w : World)

/-- The `while True` body of `EventLoop.run_until_complete`: extend
`_send_ready_tasks` with the ready tasks of a snapshot of `_all_tasks`;
if none are ready perform the blocking read, else step the ready tasks;
then return the target's result if it is done, and stop if `_is_stopping`
was recorded. -/
def runUntilCompleteAux : Nat → World → Nat → RunResult
  | 0, w, _ => .fuelOut w
  | Nat.succ fuel, w, target =>
    let ready := w.allTasks.filter (fun t => Task.isSendReady w t)
    let w1 : World := { w with sendReadyTasks := w.sendReadyTasks ++ ready }
    match (if w1.sendReadyTasks.isEmpty then
             match EventLoop.setGetchResult w1 with
             | .blocked => Option.none
             | .stepped r w2 => some (r, w2)
           else some (EventLoop.stepSendReadyTasks w1)) with
    | Option.none => .blocked w1
    | some (some e, w2) => .crashed e w2
    | some (Option.none, w2) =>
      if Future.done w2 target then .completed (Future.result w2 target) w2
      else if w2.isStopping then .stopped w2
      else runUntilCompleteAux fuel w2 target

/-- `EventLoop.run_until_complete(future)`: the loop above; the `finally`
clause resets `_is_stopping` on every exit path that leaves the `try`. -/
def EventLoop.runUntilComplete (fuel : Nat) (w : World) (target : Nat) : RunResult :=
  match runUntilCompleteAux fuel w target with
  | .completed r w2 => .completed r { w2 with isStopping := false }
  | .stopped w2 => .stopped { w2 with isStopping := false }
  | .crashed e w2 => .crashed e { w2 with isStopping := false }
  | .blocked w2 => .blocked w2
  | .fuelOut w2 => .fuelOut w2

/-! ### Heap lemmas -/

theorem lookupFut_update_self {l : List (Nat × FutureData)} {fid : Nat} {d0 d : FutureData}
    (h : lookupFut l fid = some d0) :
    lookupFut (updateFut l fid d) fid = some d := by
  induction l with
  | nil => simp [lookupFut] at h
  | cons p ps ih =>
    by_cases hp : p.1 = fid
    · simp [lookupFut, updateFut, hp]
    · simp only [lookupFut, updateFut, hp, if_false] at h ⊢
      exact ih h

theorem lookupFut_update_ne {l : List (Nat × FutureData)} {fid a : Nat} {d : FutureData}
    (h : a ≠ fid) :
    lookupFut (updateFut l fid d) a = lookupFut l a := by
  induction l with
  | nil => simp [lookupFut, updateFut]
  | cons p ps ih =>
    by_cases hp : p.1 = fid
    · have : (fid : Nat) ≠ a := fun hh => h hh.symm
      simp [lookupFut, updateFut, hp, this, ih]
    · simp only [updateFut, hp, if_false, lookupFut]
      by_cases hq : p.1 = a
      · simp [hq]
      · simp [hq, ih]

theorem lookupFut_append_some {l l2 : List (Nat × FutureData)} {fid : Nat} {d : FutureData}
    (h : lookupFut l fid = some d) :
    lookupFut (l ++ l2) fid = some d := by
  induction l with
  | nil => simp [lookupFut] at h
  | cons p ps ih =>
    by_cases hp : p.1 = fid
    · simp only [lookupFut, hp, if_true] at h
      simp [lookupFut, hp, h]
    · simp only [lookupFut, hp, if_false] at h
      simp [lookupFut, hp, ih h]

theorem updateFut_updateFut {l : List (Nat × FutureData)} {fid : Nat} {a b : FutureData} :
    updateFut (updateFut l fid a) fid b = updateFut l fid b := by
  induction l with
  | nil => simp [updateFut]
  | cons p ps ih =>
    by_cases hp : p.1 = fid
    · simp [updateFut, hp, ih]
    · simp [updateFut, hp, ih]

theorem find_callSoon {w : World} {fid : Nat} {d : FutureData} {cb : Nat} {args : List Val}
    (h : w.find fid = some d) :
    (EventLoop.callSoon w cb args).find fid = some d := by
  simp only [EventLoop.callSoon, World.find] at h ⊢
  exact lookupFut_append_some h

theorem find_foldl_callSoon {cbs : List Nat} {w : World} {fid : Nat} {d : FutureData}
    {args : Nat → List Val}
    (h : w.find fid = some d) :
    (cbs.foldl (fun acc cb => EventLoop.callSoon acc cb (args cb)) w).find fid = some d := by
  induction cbs generalizing w with
  | nil => exact h
  | cons c cs ih => exact ih (find_callSoon h)

theorem find_callDoneCallbacks {w : World} {fid fid2 : Nat} {d : FutureData}
    (h : w.find fid2 = some d) :
    (Future.callDoneCallbacks w fid).find fid2 = some d := by
  unfold Future.callDoneCallbacks
  match hf : w.find fid with
  | Option.none => exact h
  | some d0 => exact find_foldl_callSoon h

theorem callSoonLog_foldl_callSoon {cbs : List Nat} {w : World} {args : List Val} :
    (cbs.foldl (fun acc cb => EventLoop.callSoon acc cb args) w).callSoonLog
      = w.callSoonLog ++ cbs.map (fun cb => (cb, args)) := by
  induction cbs generalizing w with
  | nil => simp
  | cons c cs ih =>
    rw [List.foldl_cons, ih]
    simp [EventLoop.callSoon, List.append_assoc]

theorem callSoonLog_callDoneCallbacks {w : World} {fid : Nat} {d : FutureData}
    (h : w.find fid = some d) :
    (Future.callDoneCallbacks w fid).callSoonLog
      = w.callSoonLog ++ d.doneCallbacks.map (fun cb => (cb, [Val.fut fid])) := by
  unfold Future.callDoneCallbacks
  rw [h]
  exact callSoonLog_foldl_callSoon

/-! ### Concrete scenario helpers -/

/-- A world holding the given heap, with an empty loop state and a fresh-id
counter clear of the ids used in concrete scenarios. -/
def mkWorld (ds : List (Nat × FutureData)) : World :=
  ⟨ds, 100, [], [], false, false, Option.none, true, [], []⟩

/-- A plain pending `Future` with no callbacks. -/
def pendingFut : FutureData := ⟨.futureWaiting, [], Option.none⟩

/-- A coroutine body that returns whatever its first resume delivers and
lets an injected exception escape (the behaviour of a not-yet-started
generator under `send`/`throw`). -/
def idleCoro : Except Exc Val → CoroRun
  | .ok v => .returned v
  | .error e => .raised e

/-! ### C4 -/

/-- C4: `read()` (`Future.result`) signals `InvalidState` while the state
is pending; after a successful `complete(v)` (`set_result`) it returns
`v`; after a successful `fail(e)` (`set_exception`) it re-raises `e`;
after `cancel()` on a pending plain result it signals `OperationCancelled`
(`CancelledError`).  `result` reads the state without mutating the world,
so repeated reads in one state repeat the same outcome. -/
theorem c4_read_outcomes (w : World) (fid : Nat) (d : FutureData)
    (h : w.find fid = some d) (htask : d.task = Option.none) :
    (d.state = FState.futureWaiting → Future.result w fid = .error .invalidStateError)
  ∧ (∀ v w1, Future.setResult w fid v = .ok w1 → Future.result w1 fid = .ok v)
  ∧ (∀ e w1, Future.setException w fid e = .ok w1 → Future.result w1 fid = .error e)
  ∧ (d.state = FState.futureWaiting →
      Future.result (cancelObj w fid).2 fid = .error .cancelledError) := by
  refine ⟨?_, ?_, ?_, ?_⟩
  · intro hs
    simp [Future.result, h, hs]
  · intro v w1 hset
    unfold Future.setResult at hset
    rw [h] at hset
    by_cases hd : d.state.isDone = true
    · simp [hd] at hset
    · simp only [hd, Bool.false_eq_true, if_false, Except.ok.injEq] at hset
      subst hset
      have h2 : (w.setFut fid { d with state := FState.futureResult v }).find fid
          = some { d with state := FState.futureResult v } := lookupFut_update_self h
      have h3 : (Future.callDoneCallbacks
            (w.setFut fid { d with state := FState.futureResult v }) fid).find fid
          = some { d with state := FState.futureResult v } := find_callDoneCallbacks h2
      simp [Future.result, h3]
  · intro e w1 hset
    unfold Future.setException at hset
    rw [h] at hset
    by_cases hd : d.state.isDone = true
    · simp [hd] at hset
    · simp only [hd, Bool.false_eq_true, if_false, Except.ok.injEq] at hset
      subst hset
      have h2 : (w.setFut fid { d with state := FState.futureException e }).find fid
          = some { d with state := FState.futureException e } := lookupFut_update_self h
      have h3 : (Future.callDoneCallbacks
            (w.setFut fid { d with state := FState.futureException e }) fid).find fid
          = some { d with state := FState.futureException e } := find_callDoneCallbacks h2
      simp [Future.result, h3]
  · intro hs
    have hpend : d.state.isDone = false := by rw [hs]; rfl
    have hc : cancelObj w fid
        = (true, Future.callDoneCallbacks
            (w.setFut fid { d with state := FState.futureCancelled }) fid) := by
      simp [cancelObj, Task.cancelAux, h, htask, Future.cancel, hpend]
    rw [hc]
    have h2 : (w.setFut fid { d with state := FState.futureCancelled }).find fid
        = some { d with state := FState.futureCancelled } := lookupFut_update_self h
    have h3 : (Future.callDoneCallbacks
          (w.setFut fid { d with state := FState.futureCancelled }) fid).find fid
        = some { d with state := FState.futureCancelled } := find_callDoneCallbacks h2
    simp [Future.result, h3]

def c4w : World := mkWorld [(0, pendingFut)]

/-- Witness for C4 at a concrete pending future. -/
theorem c4_read_outcomes_witness :
    (c4w.find 0 = some pendingFut ∧ pendingFut.task = Option.none)
  ∧ ((pendingFut.state = FState.futureWaiting →
        Future.result c4w 0 = .error .invalidStateError)
    ∧ (∀ v w1, Future.setResult c4w 0 v = .ok w1 → Future.result w1 0 = .ok v)
    ∧ (∀ e w1, Future.setException c4w 0 e = .ok w1 → Future.result w1 0 = .error e)
    ∧ (pendingFut.state = FState.futureWaiting →
        Future.result (cancelObj c4w 0).2 0 = .error .cancelledError)) :=
  ⟨⟨rfl, rfl⟩, c4_read_outcomes c4w 0 pendingFut rfl rfl⟩

/-! ### C5 -/

/-- C5: `is_step_ready` (`Task._is_send_ready`) is true iff the task is
not done and, in addition, cancellation has been requested (state
`_TaskCancelling`), or there is no current awaited handle, or the current
awaited handle is done. -/
theorem c5_is_send_ready_iff (w : World) (fid : Nat) (d : FutureData) (td : TaskData)
    (h : w.find fid = some d) (ht : d.task = some td) :
    Task.isSendReady w fid = true ↔
      (Future.done w fid = false ∧
        (d.state = FState.taskCancelling ∨ td.awaitedOn = Option.none ∨
          ∃ a, td.awaitedOn = some a ∧ Future.done w a = true)) := by
  have hdone : Future.done w fid = d.state.isDone := by simp [Future.done, h]
  simp only [Task.isSendReady, h, ht, hdone]
  by_cases hd : d.state.isDone = true
  · simp [hd]
  · by_cases hc : d.state = FState.taskCancelling
    · simp [hd, hc]
    · match ha : td.awaitedOn with
      | Option.none => simp [hd, hc, ha]
      | some a => simp [hd, hc, ha]

def c5task : FutureData := ⟨.futureWaiting, [], some ⟨idleCoro, Option.none⟩⟩

def c5w : World := mkWorld [(0, c5task)]

/-- Witness for C5 at a concrete fresh task (never stepped, hence ready). -/
theorem c5_is_send_ready_iff_witness :
    (c5w.find 0 = some c5task ∧ c5task.task = some ⟨idleCoro, Option.none⟩)
  ∧ (Task.isSendReady c5w 0 = true ↔
      (Future.done c5w 0 = false ∧
        (c5task.state = FState.taskCancelling ∨
          (⟨idleCoro, Option.none⟩ : TaskData).awaitedOn = Option.none ∨
          ∃ a, (⟨idleCoro, Option.none⟩ : TaskData).awaitedOn = some a ∧
            Future.done c5w a = true))) :=
  ⟨⟨rfl, rfl⟩, c5_is_send_ready_iff c5w 0 c5task ⟨idleCoro, Option.none⟩ rfl rfl⟩

/-! ### C2 -/

/-- The three mutating operations of the AwaitableResult interface:
`complete` = `set_result`, `fail` = `set_exception`, `cancel`. -/
inductive FOp where
  | complete (v : Val)
  | fail (e : Exc)
  | cancelOp

/-- Caller-observable outcome of one operation: normal return of the
setters, a raised `InvalidStateError`, or `cancel`'s boolean return. -/
inductive FOpResult where
  | ok
  | invalidState
  | ret (b : Bool)
deriving DecidableEq, Repr

def applyFOp (w : World) (fid : Nat) : FOp → FOpResult × World
  | .complete v =>
    match Future.setResult w fid v with
    | .ok w1 => (.ok, w1)
    | .error _ => (.invalidState, w)
  | .fail e =>
    match Future.setException w fid e with
    | .ok w1 => (.ok, w1)
    | .error _ => (.invalidState, w)
  | .cancelOp =>
    let r := cancelObj w fid
    (.ret r.1, r.2)

def applyFOps (w : World) (fid : Nat) : List FOp → List FOpResult × World
  | [] => ([], w)
  | op :: ops =>
    let r1 := applyFOp w fid op
    let r2 := applyFOps r1.2 fid ops
    (r1.1 :: r2.1, r2.2)

/-- Outcome of the first operation on a pending result. -/
def FOp.firstResult : FOp → FOpResult
  | .complete _ => .ok
  | .fail _ => .ok
  | .cancelOp => .ret true

/-- Outcome of any operation attempted once the result is done: the
setters raise `InvalidStateError`, `cancel` returns `False`. -/
def FOp.rejectedResult : FOp → FOpResult
  | .complete _ => .invalidState
  | .fail _ => .invalidState
  | .cancelOp => .ret false

theorem applyFOp_done {w : World} {fid : Nat} (hd : Future.done w fid = true) (op : FOp) :
    applyFOp w fid op = (op.rejectedResult, w) := by
  unfold Future.done at hd
  match hf : w.find fid with
  | Option.none => rw [hf] at hd; simp at hd
  | some d =>
    rw [hf] at hd
    have hd2 : d.state.isDone = true := by simpa using hd
    cases op with
    | complete v => simp [applyFOp, FOp.rejectedResult, Future.setResult, hf, hd2]
    | fail e => simp [applyFOp, FOp.rejectedResult, Future.setException, hf, hd2]
    | cancelOp =>
      have hc : cancelObj w fid = (false, w) := by
        match ht : d.task with
        | Option.none => simp [cancelObj, Task.cancelAux, hf, ht, Future.cancel, hd2]
        | some td => simp [cancelObj, Task.cancelAux, hf, ht, hd2]
      simp [applyFOp, FOp.rejectedResult, hc]

theorem applyFOps_done {w : World} {fid : Nat} (hd : Future.done w fid = true)
    (ops : List FOp) :
    applyFOps w fid ops = (ops.map FOp.rejectedResult, w) := by
  induction ops with
  | nil => rfl
  | cons op rest ih => simp [applyFOps, applyFOp_done hd op, ih]

/-- C2 (amended): on one pending plain AwaitableResult, for every
sequence of `complete`/`fail`/`cancel` calls only the first succeeds
(`complete`/`fail` return normally, `cancel` returns `True`); every
subsequent `complete`/`fail` raises `InvalidStateError` and every
subsequent `cancel` returns `False` — NOT `InvalidStateError` — and no
subsequent call changes the world at all. -/
theorem c2_single_assignment (w : World) (fid : Nat) (d : FutureData)
    (op : FOp) (ops : List FOp)
    (h : w.find fid = some d) (hs : d.state = FState.futureWaiting)
    (htask : d.task = Option.none) :
    ∃ w1, applyFOp w fid op = (op.firstResult, w1) ∧ Future.done w1 fid = true ∧
      applyFOps w fid (op :: ops)
        = (op.firstResult :: ops.map FOp.rejectedResult, w1) := by
  have hpend : d.state.isDone = false := by rw [hs]; rfl
  have key : ∀ (st : FState), st.isDone = true →
      Future.done (Future.callDoneCallbacks
        (w.setFut fid { d with state := st }) fid) fid = true := by
    intro st hst
    have h2 : (w.setFut fid { d with state := st }).find fid
        = some { d with state := st } := lookupFut_update_self h
    have h3 : (Future.callDoneCallbacks (w.setFut fid { d with state := st }) fid).find fid
        = some { d with state := st } := find_callDoneCallbacks h2
    simp [Future.done, h3, hst]
  cases op with
  | complete v =>
    refine ⟨Future.callDoneCallbacks
        (w.setFut fid { d with state := FState.futureResult v }) fid, ?_,
      key _ rfl, ?_⟩
    · simp [applyFOp, FOp.firstResult, Future.setResult, h, hpend]
    · simp [applyFOps, applyFOp, Future.setResult, h, hpend,
        applyFOps_done (key (FState.futureResult v) rfl) ops, FOp.firstResult]
  | fail e =>
    refine ⟨Future.callDoneCallbacks
        (w.setFut fid { d with state := FState.futureException e }) fid, ?_,
      key _ rfl, ?_⟩
    · simp [applyFOp, FOp.firstResult, Future.setException, h, hpend]
    · simp [applyFOps, applyFOp, Future.setException, h, hpend,
        applyFOps_done (key (FState.futureException e) rfl) ops, FOp.firstResult]
  | cancelOp =>
    have hc : cancelObj w fid
        = (true, Future.callDoneCallbacks
            (w.setFut fid { d with state := FState.futureCancelled }) fid) := by
      simp [cancelObj, Task.cancelAux, h, htask, Future.cancel, hpend]
    refine ⟨Future.callDoneCallbacks
        (w.setFut fid { d with state := FState.futureCancelled }) fid, ?_,
      key _ rfl, ?_⟩
    · simp [applyFOp, FOp.firstResult, hc]
    · simp [applyFOps, applyFOp, hc,
        applyFOps_done (key FState.futureCancelled rfl) ops, FOp.firstResult]

def c2w : World := mkWorld [(0, pendingFut)]

/-- Witness for C2 at a concrete pending future and the sequence
`[complete 1, fail u0, cancel]`. -/
theorem c2_single_assignment_witness :
    (c2w.find 0 = some pendingFut ∧ pendingFut.state = FState.futureWaiting)
  ∧ (∃ w1, applyFOp c2w 0 (FOp.complete (Val.int 1))
        = ((FOp.complete (Val.int 1)).firstResult, w1) ∧ Future.done w1 0 = true ∧
      applyFOps c2w 0 [FOp.complete (Val.int 1), FOp.fail (Exc.userError 0), FOp.cancelOp]
        = ((FOp.complete (Val.int 1)).firstResult ::
            [FOp.fail (Exc.userError 0), FOp.cancelOp].map FOp.rejectedResult, w1)) :=
  ⟨⟨rfl, rfl⟩,
    c2_single_assignment c2w 0 pendingFut (FOp.complete (Val.int 1))
      [FOp.fail (Exc.userError 0), FOp.cancelOp] rfl rfl rfl⟩

/-- Counterexample to C2 as stated: after a first `complete`, a subsequent
`cancel` does NOT signal `InvalidState`; it returns `False`. -/
theorem c2_cancel_not_invalid_counterexample :
    (applyFOps c2w 0 [FOp.complete (Val.int 1), FOp.cancelOp]).1
        = [FOpResult.ok, FOpResult.ret false]
      ∧ FOpResult.ret false ≠ FOpResult.invalidState := by
  exact ⟨rfl, by decide⟩

/-! ### C9 -/

theorem length_filter_ne_count (l : List Nat) (cb : Nat) :
    ((l.filter (fun entry => entry ≠ cb)).length : Int) - (l.length : Int)
      = -(l.count cb : Int) := by
  induction l with
  | nil => simp
  | cons x xs ih =>
    by_cases hx : x = cb
    · have hfilter : (x :: xs).filter (fun entry => entry ≠ cb)
          = xs.filter (fun entry => entry ≠ cb) := by
        simp [List.filter_cons, hx]
      have hcount : (x :: xs).count cb = xs.count cb + 1 := by
        rw [List.count_cons]
        simp [hx]
      rw [hfilter, hcount, List.length_cons]
      push_cast
      omega
    · have hfilter : (x :: xs).filter (fun entry => entry ≠ cb)
          = x :: xs.filter (fun entry => entry ≠ cb) := by
        simp [List.filter_cons, hx]
      have hcount : (x :: xs).count cb = xs.count cb := by
        have hbx : (x == cb) = false := by simp [hx]
        rw [List.count_cons, hbx]
        simp
      rw [hfilter, hcount, List.length_cons, List.length_cons]
      push_cast
      omega

theorem filter_ne_idem (l : List Nat) (cb : Nat) :
    (l.filter (fun entry => entry ≠ cb)).filter (fun entry => entry ≠ cb)
      = l.filter (fun entry => entry ≠ cb) := by
  induction l with
  | nil => rfl
  | cons x xs ih =>
    by_cases hx : x = cb
    · simp [List.filter_cons, hx, ih]
    · simp [List.filter_cons, hx, ih]

theorem setFut_setFut (w : World) (fid : Nat) (a b : FutureData) :
    (w.setFut fid a).setFut fid b = w.setFut fid b := by
  simp [World.setFut, updateFut_updateFut]

theorem removeDoneCallback_eq_of_find {w : World} {fid : Nat} {d : FutureData} {cb : Nat}
    (h : w.find fid = some d) :
    Future.removeDoneCallback w fid cb
      = (((d.doneCallbacks.filter (fun entry => entry ≠ cb)).length : Int)
            - (d.doneCallbacks.length : Int),
        w.setFut fid { d with doneCallbacks :=
          d.doneCallbacks.filter (fun entry => entry ≠ cb) }) := by
  simp only [Future.removeDoneCallback, h]

/-- C9 (amended): `unregister` (`remove_done_callback`) removes every
registered occurrence of the callback (identity comparison), is
idempotent (a second call removes nothing, returns `0`, and leaves the
world unchanged), and returns the negated count of removed callbacks —
an `int` that is nonzero iff a removal occurred, not a boolean. -/
theorem c9_remove_done_callback (w : World) (fid : Nat) (d : FutureData) (cb : Nat)
    (h : w.find fid = some d) :
    (Future.removeDoneCallback w fid cb).1 = -(d.doneCallbacks.count cb : Int)
  ∧ ((Future.removeDoneCallback w fid cb).1 ≠ 0 ↔ cb ∈ d.doneCallbacks)
  ∧ (Future.removeDoneCallback w fid cb).2.find fid
      = some { d with doneCallbacks := d.doneCallbacks.filter (fun entry => entry ≠ cb) }
  ∧ cb ∉ d.doneCallbacks.filter (fun entry => entry ≠ cb)
  ∧ Future.removeDoneCallback (Future.removeDoneCallback w fid cb).2 fid cb
      = (0, (Future.removeDoneCallback w fid cb).2) := by
  have hval : (Future.removeDoneCallback w fid cb).1
      = -(d.doneCallbacks.count cb : Int) := by
    simp only [Future.removeDoneCallback, h]
    exact length_filter_ne_count d.doneCallbacks cb
  have hworld : (Future.removeDoneCallback w fid cb).2
      = w.setFut fid { d with doneCallbacks :=
          d.doneCallbacks.filter (fun entry => entry ≠ cb) } := by
    simp only [Future.removeDoneCallback, h]
  have hfind : (Future.removeDoneCallback w fid cb).2.find fid
      = some { d with doneCallbacks :=
          d.doneCallbacks.filter (fun entry => entry ≠ cb) } := by
    rw [hworld]
    exact lookupFut_update_self h
  refine ⟨hval, ?_, hfind, ?_, ?_⟩
  · rw [hval]
    constructor
    · intro hne
      have hcz : d.doneCallbacks.count cb ≠ 0 := by
        intro h0
        rw [h0] at hne
        simp at hne
      exact List.count_pos_iff.1 (Nat.pos_of_ne_zero hcz)
    · intro hmem hzero
      have hpos : 0 < d.doneCallbacks.count cb := List.count_pos_iff.2 hmem
      omega
  · simp
  · have hfi := filter_ne_idem d.doneCallbacks cb
    rw [removeDoneCallback_eq_of_find hfind, hfi, hworld, setFut_setFut]
    simp

def c9w : World := mkWorld [(0, ⟨.futureWaiting, [5, 5], Option.none⟩)]

/-- Witness for C9 at a concrete future with the callback registered
twice. -/
theorem c9_remove_done_callback_witness :
    (c9w.find 0 = some ⟨.futureWaiting, [5, 5], Option.none⟩)
  ∧ ((Future.removeDoneCallback c9w 0 5).1
        = -((([5, 5] : List Nat).count 5 : Nat) : Int)
    ∧ ((Future.removeDoneCallback c9w 0 5).1 ≠ 0 ↔ 5 ∈ ([5, 5] : List Nat))
    ∧ (Future.removeDoneCallback c9w 0 5).2.find 0
        = some ⟨.futureWaiting, ([5, 5] : List Nat).filter (fun entry => entry ≠ 5),
            Option.none⟩
    ∧ 5 ∉ ([5, 5] : List Nat).filter (fun entry => entry ≠ 5)
    ∧ Future.removeDoneCallback (Future.removeDoneCallback c9w 0 5).2 0 5
        = (0, (Future.removeDoneCallback c9w 0 5).2)) :=
  ⟨rfl, c9_remove_done_callback c9w 0 ⟨.futureWaiting, [5, 5], Option.none⟩ 5 rfl⟩

/-- Counterexample to C9 as stated: with the callback registered twice,
`remove_done_callback` returns `-2`, which is neither Python `False`
(`0`) nor `True` (`1`): not a boolean report of whether removal
occurred. -/
theorem c9_returns_int_counterexample :
    (Future.removeDoneCallback c9w 0 5).1 = -2
      ∧ (-2 : Int) ≠ 0 ∧ (-2 : Int) ≠ 1 := by
  refine ⟨?_, by decide, by decide⟩
  decide

/-! ### C10 -/

/-- C10: `on_done` (`add_done_callback`) on an already-done result
schedules the callback via `call_soon(callback)` with an empty argument
list — without the awaitable — and does not store it; a callback
registered while pending is stored, and when the result later completes,
`_call_done_callbacks` schedules every stored callback via
`call_soon(callback, self)` — with the completed awaitable as its one
argument. -/
theorem c10_done_callback_arguments (w : World) (fid : Nat) (d : FutureData) (cb : Nat)
    (h : w.find fid = some d) :
    (d.state.isDone = true →
      (Future.addDoneCallback w fid cb).callSoonLog = w.callSoonLog ++ [(cb, [])]
        ∧ (Future.addDoneCallback w fid cb).find fid = some d)
  ∧ (d.state.isDone = false →
      (Future.addDoneCallback w fid cb).find fid
          = some ⟨d.state, d.doneCallbacks ++ [cb], d.task⟩
        ∧ (Future.addDoneCallback w fid cb).callSoonLog = w.callSoonLog
        ∧ ∀ v w2, Future.setResult (Future.addDoneCallback w fid cb) fid v = .ok w2 →
            w2.callSoonLog
              = w.callSoonLog
                  ++ (d.doneCallbacks ++ [cb]).map (fun c => (c, [Val.fut fid]))) := by
  constructor
  · intro hd
    constructor
    · simp [Future.addDoneCallback, h, hd, EventLoop.callSoon]
    · have hadd : Future.addDoneCallback w fid cb = EventLoop.callSoon w cb [] := by
        simp [Future.addDoneCallback, h, hd]
      rw [hadd]
      exact find_callSoon h
  · intro hd
    have hadd : Future.addDoneCallback w fid cb
        = w.setFut fid ⟨d.state, d.doneCallbacks ++ [cb], d.task⟩ := by
      simp [Future.addDoneCallback, h, hd]
    have hfind1 : (Future.addDoneCallback w fid cb).find fid
        = some ⟨d.state, d.doneCallbacks ++ [cb], d.task⟩ := by
      rw [hadd]
      exact lookupFut_update_self h
    refine ⟨hfind1, by rw [hadd]; rfl, ?_⟩
    intro v w2 hset
    unfold Future.setResult at hset
    rw [hfind1] at hset
    simp only [hd, Bool.false_eq_true, if_false, Except.ok.injEq] at hset
    have hset2 : Future.callDoneCallbacks
        ((Future.addDoneCallback w fid cb).setFut fid
          ⟨FState.futureResult v, d.doneCallbacks ++ [cb], d.task⟩) fid = w2 := hset
    have hfind2 : ((Future.addDoneCallback w fid cb).setFut fid
          ⟨FState.futureResult v, d.doneCallbacks ++ [cb], d.task⟩).find fid
        = some ⟨FState.futureResult v, d.doneCallbacks ++ [cb], d.task⟩ :=
      lookupFut_update_self hfind1
    rw [← hset2, callSoonLog_callDoneCallbacks hfind2]
    have hlog : ((Future.addDoneCallback w fid cb).setFut fid
          ⟨FState.futureResult v, d.doneCallbacks ++ [cb], d.task⟩).callSoonLog
        = w.callSoonLog := by
      rw [hadd]
      rfl
    rw [hlog]

def c10d : FutureData := ⟨.futureWaiting, [7], Option.none⟩

def c10w : World := mkWorld [(0, c10d)]

/-- Witness for C10 at a concrete pending future with one stored callback
and one late registration. -/
theorem c10_done_callback_arguments_witness :
    (c10w.find 0 = some c10d)
  ∧ ((c10d.state.isDone = true →
      (Future.addDoneCallback c10w 0 8).callSoonLog = c10w.callSoonLog ++ [(8, [])]
        ∧ (Future.addDoneCallback c10w 0 8).find 0 = some c10d)
    ∧ (c10d.state.isDone = false →
      (Future.addDoneCallback c10w 0 8).find 0
          = some ⟨c10d.state, c10d.doneCallbacks ++ [8], c10d.task⟩
        ∧ (Future.addDoneCallback c10w 0 8).callSoonLog = c10w.callSoonLog
        ∧ ∀ v w2, Future.setResult (Future.addDoneCallback c10w 0 8) 0 v = .ok w2 →
            w2.callSoonLog
              = c10w.callSoonLog
                  ++ (c10d.doneCallbacks ++ [8]).map (fun c => (c, [Val.fut 0])))) :=
  ⟨rfl, c10_done_callback_arguments c10w 0 c10d 8 rfl⟩

/-! ### C7 -/

theorem lookupFut_append_right {l l2 : List (Nat × FutureData)} {fid : Nat}
    (h : lookupFut l fid = Option.none) :
    lookupFut (l ++ l2) fid = lookupFut l2 fid := by
  induction l with
  | nil => rfl
  | cons p ps ih =>
    by_cases hp : p.1 = fid
    · simp [lookupFut, hp] at h
    · simp only [lookupFut, hp, if_false] at h
      simp [lookupFut, hp, ih h]

theorem callDoneCallbacks_nil {w : World} {fid : Nat} {d : FutureData}
    (h : w.find fid = some d) (hcbs : d.doneCallbacks = []) :
    Future.callDoneCallbacks w fid = w := by
  simp [Future.callDoneCallbacks, h, hcbs]

/-- `_set_getch_result` on a world whose terminal is open, whose input
stream delivers a value, and whose outstanding getch future is pending
with no callbacks: the future is resolved with the value and the
outstanding slot is cleared. -/
theorem setGetchResult_resolves {w : World} {f : Nat} {d : FutureData} {n : Int}
    {rest : List (Option Int)}
    (hscr : w.stdscr = true) (hin : w.inputs = some n :: rest)
    (hg : w.getchFuture = some f)
    (hfind : w.find f = some d) (hpend : d.state.isDone = false)
    (hcbs : d.doneCallbacks = []) :
    EventLoop.setGetchResult w
      = GetchStep.stepped Option.none
          { ({ w with inputs := rest, isWaiting := false } : World).setFut f
              { d with state := FState.futureResult (.int n) } with
            getchFuture := Option.none } := by
  obtain ⟨wfut, wnid, wat, wsrt, wstp, wwtg, wgf, wscr, winp, wlog⟩ := w
  simp only [World.stdscr] at hscr
  simp only [World.inputs] at hin
  simp only [World.getchFuture] at hg
  subst hscr
  subst hin
  subst hg
  have hfind1 : lookupFut wfut f = some d := hfind
  have hfind2 : lookupFut (updateFut wfut f { d with state := FState.futureResult (.int n) }) f
      = some { d with state := FState.futureResult (.int n) } :=
    lookupFut_update_self hfind1
  have hnil : Future.callDoneCallbacks
      ((World.mk wfut wnid wat wsrt wstp false (some f) true rest wlog).setFut f
        { d with state := FState.futureResult (.int n) }) f
      = (World.mk wfut wnid wat wsrt wstp false (some f) true rest wlog).setFut f
        { d with state := FState.futureResult (.int n) } :=
    callDoneCallbacks_nil hfind2 hcbs
  have hset : Future.setResult
        (World.mk wfut wnid wat wsrt wstp false (some f) true rest wlog) f (.int n)
      = .ok ((World.mk wfut wnid wat wsrt wstp false (some f) true rest wlog).setFut f
          { d with state := FState.futureResult (.int n) }) := by
    simp only [Future.setResult, World.find, hfind1, hpend, Bool.false_eq_true,
      if_false, hnil]
  simp only [EventLoop.setGetchResult, Bool.not_true, Bool.false_eq_true,
    if_false, hset]

/-- C7: a second `request_input` (`EventLoop.getch` up to its yield) with
no intervening completion returns the very same outstanding awaitable
instance and leaves the loop state untouched; and when the single
physical read (`_set_getch_result`) resolves that awaitable, reading it
yields the delivered value — both observers hold the same id, so both
read the identical value. -/
theorem c7_getch_coalescing (w : World) :
    (EventLoop.getchStart (EventLoop.getchStart w).2).1 = (EventLoop.getchStart w).1
  ∧ (EventLoop.getchStart (EventLoop.getchStart w).2).2 = (EventLoop.getchStart w).2
  ∧ (w.getchFuture = Option.none → w.find w.nextId = Option.none → w.stdscr = true →
      ∀ (n : Int) (rest : List (Option Int)), w.inputs = some n :: rest →
        ∃ w2, EventLoop.setGetchResult (EventLoop.getchStart w).2
            = GetchStep.stepped Option.none w2
          ∧ Future.result w2 (EventLoop.getchStart w).1 = .ok (.int n)
          ∧ w2.getchFuture = Option.none) := by
  refine ⟨?_, ?_, ?_⟩
  · match hg : w.getchFuture with
    | some f => simp [EventLoop.getchStart, hg]
    | Option.none => simp [EventLoop.getchStart, hg]
  · match hg : w.getchFuture with
    | some f => simp [EventLoop.getchStart, hg]
    | Option.none => simp [EventLoop.getchStart, hg]
  · intro hg hfresh hscr n rest hinputs
    have hstart : EventLoop.getchStart w
        = (w.nextId,
            { w with
              nextId := w.nextId + 1
              futures := w.futures ++ [(w.nextId, ⟨.futureWaiting, [], Option.none⟩)]
              getchFuture := some w.nextId }) := by
      simp [EventLoop.getchStart, hg]
    rw [hstart]
    have hfind : ({ w with
          nextId := w.nextId + 1
          futures := w.futures ++ [(w.nextId, ⟨.futureWaiting, [], Option.none⟩)]
          getchFuture := some w.nextId } : World).find w.nextId
        = some ⟨.futureWaiting, [], Option.none⟩ := by
      show lookupFut
          (w.futures ++ [(w.nextId, (⟨.futureWaiting, [], Option.none⟩ : FutureData))])
          w.nextId = some ⟨.futureWaiting, [], Option.none⟩
      rw [lookupFut_append_right hfresh]
      simp [lookupFut]
    have hstep := @setGetchResult_resolves
      { w with
        nextId := w.nextId + 1
        futures := w.futures ++ [(w.nextId, ⟨.futureWaiting, [], Option.none⟩)]
        getchFuture := some w.nextId }
      w.nextId ⟨.futureWaiting, [], Option.none⟩ n rest
      hscr hinputs rfl hfind rfl rfl
    refine ⟨_, hstep, ?_, rfl⟩
    have hfind2 : (({ w with
          nextId := w.nextId + 1
          futures := w.futures ++ [(w.nextId, ⟨.futureWaiting, [], Option.none⟩)]
          getchFuture := some w.nextId
          inputs := rest
          isWaiting := false } : World).setFut w.nextId
          ⟨FState.futureResult (.int n), [], Option.none⟩).find w.nextId
        = some ⟨FState.futureResult (.int n), [], Option.none⟩ :=
      lookupFut_update_self hfind
    simp [Future.result, World.find] at hfind2 ⊢
    rw [show (FState.futureResult (Val.int n)) = (⟨FState.futureResult (.int n), [],
      Option.none⟩ : FutureData).state from rfl]
    rw [hfind2]

def c7w : World :=
  ⟨[], 100, [], [], false, false, Option.none, true, [some 65], []⟩

/-- Witness for C7 at a concrete loop with one pending input value. -/
theorem c7_getch_coalescing_witness :
    (c7w.getchFuture = Option.none ∧ c7w.find c7w.nextId = Option.none
      ∧ c7w.stdscr = true ∧ c7w.inputs = some 65 :: [])
  ∧ ((EventLoop.getchStart (EventLoop.getchStart c7w).2).1
        = (EventLoop.getchStart c7w).1
    ∧ (EventLoop.getchStart (EventLoop.getchStart c7w).2).2
        = (EventLoop.getchStart c7w).2
    ∧ (c7w.getchFuture = Option.none → c7w.find c7w.nextId = Option.none →
        c7w.stdscr = true →
        ∀ (n : Int) (rest : List (Option Int)), c7w.inputs = some n :: rest →
          ∃ w2, EventLoop.setGetchResult (EventLoop.getchStart c7w).2
              = GetchStep.stepped Option.none w2
            ∧ Future.result w2 (EventLoop.getchStart c7w).1 = .ok (.int n)
            ∧ w2.getchFuture = Option.none)) :=
  ⟨⟨rfl, rfl, rfl, rfl⟩, c7_getch_coalescing c7w⟩

/-! ### C8 -/

/-- C8 (amended): `step()` (`Task.send`) on a task whose
`is_step_ready()` is false leaves the world — hence the task's state and
awaited handle — completely unchanged, never resumes the computation, and
raises an exception: `StopIteration` when the task is done (with its
awaited handle absent or done), the `assert awaited_on.done()` failure
otherwise.  It never raises `InvalidStateError`. -/
theorem c8_step_not_ready (w : World) (fid : Nat) (d : FutureData) (td : TaskData)
    (h : w.find fid = some d) (ht : d.task = some td)
    (hnr : Task.isSendReady w fid = false) :
    ∃ e, Task.send w fid = (some e, w)
      ∧ ((e = Exc.stopIteration ∧ Future.done w fid = true) ∨ e = Exc.assertionError) := by
  simp only [Task.isSendReady, h, ht] at hnr
  by_cases hd : d.state.isDone = true
  · have hdone : Future.done w fid = true := by simp [Future.done, h, hd]
    by_cases hc : d.state = FState.futureCancelled
    · refine ⟨Exc.stopIteration, ?_, Or.inl ⟨rfl, hdone⟩⟩
      simp [Task.send, h, ht, hc, Task.stepCoro, hd, FState.isDone]
    · match ha : td.awaitedOn with
      | Option.none =>
        refine ⟨Exc.stopIteration, ?_, Or.inl ⟨rfl, hdone⟩⟩
        simp [Task.send, h, ht, hc, ha, Task.stepCoro, hd]
      | some a =>
        by_cases hda : Future.done w a = true
        · refine ⟨Exc.stopIteration, ?_, Or.inl ⟨rfl, hdone⟩⟩
          match hr : Future.result w a with
          | .ok v => simp [Task.send, h, ht, hc, ha, hda, hr, Task.stepCoro, hd]
          | .error e2 => simp [Task.send, h, ht, hc, ha, hda, hr, Task.stepCoro, hd]
        · refine ⟨Exc.assertionError, ?_, Or.inr rfl⟩
          simp [Task.send, h, ht, hc, ha, hda]
  · have hc : ¬(d.state = FState.futureCancelled) := by
      intro hcc
      rw [hcc] at hd
      exact hd rfl
    simp only [hd, Bool.false_eq_true, if_false] at hnr
    by_cases hcl : d.state = FState.taskCancelling
    · simp [hcl] at hnr
    · simp only [hcl, if_false] at hnr
      match ha : td.awaitedOn with
      | Option.none => rw [ha] at hnr; simp at hnr
      | some a =>
        rw [ha] at hnr
        have hda : Future.done w a = false := by simpa using hnr
        refine ⟨Exc.assertionError, ?_, Or.inr rfl⟩
        simp [Task.send, h, ht, hc, ha, hda]

def c8task : FutureData := ⟨.futureResult (.int 1), [], some ⟨idleCoro, Option.none⟩⟩

def c8w : World := mkWorld [(0, c8task)]

/-- Witness for C8 at a concrete already-completed task. -/
theorem c8_step_not_ready_witness :
    (c8w.find 0 = some c8task ∧ c8task.task = some ⟨idleCoro, Option.none⟩
      ∧ Task.isSendReady c8w 0 = false)
  ∧ (∃ e, Task.send c8w 0 = (some e, c8w)
      ∧ ((e = Exc.stopIteration ∧ Future.done c8w 0 = true)
          ∨ e = Exc.assertionError)) :=
  ⟨⟨rfl, rfl, rfl⟩,
    c8_step_not_ready c8w 0 c8task ⟨idleCoro, Option.none⟩ rfl rfl rfl⟩

/-- Counterexample to C8 as stated: stepping a done (hence not
step-ready) task raises `StopIteration`, not `InvalidState`. -/
theorem c8_signals_stop_iteration_counterexample :
    Task.isSendReady c8w 0 = false
      ∧ Task.send c8w 0 = (some Exc.stopIteration, c8w)
      ∧ Exc.stopIteration ≠ Exc.invalidStateError := by
  refine ⟨rfl, rfl, by decide⟩

/-! ### C3 -/

/-- A task already in the `_TaskCancelling` state is never modified again
by a cancellation cascade: `Task.cancel` returns without touching it
("Change state first to avoid infinite recursion"), so its heap record is
preserved by any further `cancelAux` call. -/
theorem cancelAux_preserves_cancelling :
    ∀ (fuel : Nat) (w : World) (fid t : Nat) (d : FutureData),
    w.find t = some d → d.state = FState.taskCancelling → d.task.isSome = true →
    (Task.cancelAux fuel w fid).2.find t = some d := by
  intro fuel
  induction fuel with
  | zero =>
    intro w fid t d h _ _
    exact h
  | succ fuel ih =>
    intro w fid t d h hs htask
    match hf : w.find fid with
    | Option.none =>
      simp only [Task.cancelAux, hf]
      exact h
    | some df =>
      match htf : df.task with
      | Option.none =>
        have hne : fid ≠ t := by
          intro hcc
          subst hcc
          rw [h] at hf
          injection hf with hh
          subst hh
          rw [htf] at htask
          simp at htask
        simp only [Task.cancelAux, hf, htf]
        unfold Future.cancel
        rw [hf]
        by_cases hdone : df.state.isDone = true
        · simp only [hdone, if_true]
          exact h
        · simp only [hdone, Bool.false_eq_true, if_false]
          have h2 : (w.setFut fid { df with state := FState.futureCancelled }).find t
              = some d := by
            show lookupFut (updateFut w.futures fid
              { df with state := FState.futureCancelled }) t = some d
            rw [lookupFut_update_ne (Ne.symm hne)]
            exact h
          exact find_callDoneCallbacks h2
      | some tdf =>
        by_cases hdone : df.state.isDone = true
        · simp only [Task.cancelAux, hf, htf, hdone, if_true]
          exact h
        · by_cases hcl : df.state = FState.taskCancelling
          · simp only [Task.cancelAux, hf, htf, hdone, Bool.false_eq_true, if_false,
              hcl, if_true]
            exact h
          · have hne : fid ≠ t := by
              intro hcc
              subst hcc
              rw [h] at hf
              injection hf with hh
              subst hh
              exact hcl hs
            have h2 : (w.setFut fid
                  ⟨FState.taskCancelling, df.doneCallbacks, some tdf⟩).find t
                = some d := by
              show lookupFut (updateFut w.futures fid
                ⟨FState.taskCancelling, df.doneCallbacks, some tdf⟩) t = some d
              rw [lookupFut_update_ne (Ne.symm hne)]
              exact h
            match ha : tdf.awaitedOn with
            | Option.none =>
              simp only [Task.cancelAux, hf, htf, hdone, Bool.false_eq_true, if_false,
                hcl, ha]
              exact h2
            | some a =>
              simp only [Task.cancelAux, hf, htf, hdone, Bool.false_eq_true, if_false,
                hcl, ha]
              exact ih _ a t d h2 hs htask

/-- C3 (amended): cancelling a task `T` whose awaited handle is itself a
task `U` cascades a cancellation REQUEST: `cancel()` returns `True`, both
`T` and `U` move to the `_TaskCancelling` state, but `U.is_cancelled()`
is still `false` (a task only reaches `_FutureCancelled` when a later
step acknowledges the request), and `T` is not terminal immediately after
`cancel()`. -/
theorem c3_cancel_cascade (w : World) (t u : Nat) (dt du : FutureData)
    (tdt tdu : TaskData)
    (hT : w.find t = some dt) (hTt : dt.task = some tdt)
    (hTs : dt.state = FState.futureWaiting) (hTa : tdt.awaitedOn = some u)
    (hU : w.find u = some du) (hUt : du.task = some tdu)
    (hUs : du.state = FState.futureWaiting)
    (hne : t ≠ u) :
    (cancelObj w t).1 = true
  ∧ (cancelObj w t).2.find t = some { dt with state := FState.taskCancelling }
  ∧ (cancelObj w t).2.find u = some { du with state := FState.taskCancelling }
  ∧ Future.cancelled (cancelObj w t).2 u = false
  ∧ Future.done (cancelObj w t).2 t = false := by
  have hdt_nd : dt.state.isDone = false := by rw [hTs]; rfl
  have hdt_nc : ¬(dt.state = FState.taskCancelling) := by rw [hTs]; simp
  have hdu_nd : du.state.isDone = false := by rw [hUs]; rfl
  have hdu_nc : ¬(du.state = FState.taskCancelling) := by rw [hUs]; simp
  have hw1t : (w.setFut t { dt with state := FState.taskCancelling }).find t
      = some { dt with state := FState.taskCancelling } := lookupFut_update_self hT
  have hw1u : (w.setFut t { dt with state := FState.taskCancelling }).find u
      = some du := by
    show lookupFut (updateFut w.futures t { dt with state := FState.taskCancelling }) u
      = some du
    rw [lookupFut_update_ne (Ne.symm hne)]
    exact hU
  have hk : ∃ k, w.futures.length = k + 1 := by
    match hw : w.futures with
    | [] =>
      rw [World.find, hw] at hT
      simp [lookupFut] at hT
    | p :: ps => exact ⟨ps.length, rfl⟩
  obtain ⟨k, hklen⟩ := hk
  have step1 : cancelObj w t
      = (true, (Task.cancelAux w.futures.length
          (w.setFut t { dt with state := FState.taskCancelling }) u).2) := by
    show Task.cancelAux (Nat.succ w.futures.length) w t = _
    simp only [Task.cancelAux, hT, hTt, hdt_nd, Bool.false_eq_true, if_false,
      hdt_nc, hTa]
  have hfin : ∃ wf, cancelObj w t = (true, wf)
      ∧ wf.find t = some { dt with state := FState.taskCancelling }
      ∧ wf.find u = some { du with state := FState.taskCancelling } := by
    match ha : tdu.awaitedOn with
    | Option.none =>
      have step2 : Task.cancelAux w.futures.length
          (w.setFut t { dt with state := FState.taskCancelling }) u
          = (true, (w.setFut t { dt with state := FState.taskCancelling }).setFut u
              { du with state := FState.taskCancelling }) := by
        rw [hklen]
        show Task.cancelAux (Nat.succ k) _ u = _
        simp only [Task.cancelAux, hw1u, hUt, hdu_nd, Bool.false_eq_true, if_false,
          hdu_nc, ha]
      refine ⟨_, by rw [step1, step2], ?_, ?_⟩
      · show lookupFut (updateFut _ u { du with state := FState.taskCancelling }) t
          = some { dt with state := FState.taskCancelling }
        rw [lookupFut_update_ne hne]
        exact hw1t
      · exact lookupFut_update_self hw1u
    | some b =>
      have step2 : Task.cancelAux w.futures.length
          (w.setFut t { dt with state := FState.taskCancelling }) u
          = (true, (Task.cancelAux k
              ((w.setFut t { dt with state := FState.taskCancelling }).setFut u
                { du with state := FState.taskCancelling }) b).2) := by
        rw [hklen]
        show Task.cancelAux (Nat.succ k) _ u = _
        simp only [Task.cancelAux, hw1u, hUt, hdu_nd, Bool.false_eq_true, if_false,
          hdu_nc, ha]
      have hw2t : ((w.setFut t { dt with state := FState.taskCancelling }).setFut u
            { du with state := FState.taskCancelling }).find t
          = some { dt with state := FState.taskCancelling } := by
        show lookupFut (updateFut _ u { du with state := FState.taskCancelling }) t
          = some { dt with state := FState.taskCancelling }
        rw [lookupFut_update_ne hne]
        exact hw1t
      have hw2u : ((w.setFut t { dt with state := FState.taskCancelling }).setFut u
            { du with state := FState.taskCancelling }).find u
          = some { du with state := FState.taskCancelling } :=
        lookupFut_update_self hw1u
      refine ⟨_, by rw [step1, step2], ?_, ?_⟩
      · exact cancelAux_preserves_cancelling k _ b t _ hw2t rfl (by simp [hTt])
      · exact cancelAux_preserves_cancelling k _ b u _ hw2u rfl (by simp [hUt])
  obtain ⟨wf, hco, hft, hfu⟩ := hfin
  rw [hco]
  refine ⟨rfl, hft, hfu, ?_, ?_⟩
  · simp [Future.cancelled, hfu]
  · simp [Future.done, hft, FState.isDone]

def c3u : FutureData := ⟨.futureWaiting, [], some ⟨idleCoro, Option.none⟩⟩

def c3t : FutureData := ⟨.futureWaiting, [], some ⟨idleCoro, some 1⟩⟩

def c3w : World := mkWorld [(0, c3t), (1, c3u)]

/-- Witness for C3 at a concrete pair of tasks, the outer awaiting the
inner. -/
theorem c3_cancel_cascade_witness :
    (c3w.find 0 = some c3t ∧ c3w.find 1 = some c3u ∧ (0 : Nat) ≠ 1)
  ∧ ((cancelObj c3w 0).1 = true
    ∧ (cancelObj c3w 0).2.find 0 = some { c3t with state := FState.taskCancelling }
    ∧ (cancelObj c3w 0).2.find 1 = some { c3u with state := FState.taskCancelling }
    ∧ Future.cancelled (cancelObj c3w 0).2 1 = false
    ∧ Future.done (cancelObj c3w 0).2 0 = false) :=
  ⟨⟨rfl, rfl, by decide⟩,
    c3_cancel_cascade c3w 0 1 c3t c3u ⟨idleCoro, some 1⟩ ⟨idleCoro, Option.none⟩
      rfl rfl rfl rfl rfl rfl rfl (by decide)⟩

/-- Counterexample to C3 as stated: after cancelling the outer task, the
inner task U is NOT cancelled in the `is_cancelled()` sense —
`U.cancelled()` returns `false` (its state is `_TaskCancelling`, a
`_FutureWaiting` subclass). -/
theorem c3_inner_not_cancelled_counterexample :
    (cancelObj c3w 0).1 = true
      ∧ Future.cancelled (cancelObj c3w 0).2 1 = false :=
  ⟨rfl, rfl⟩

/-! ### C1 -/

/-- A coroutine body that, when started normally, immediately returns 7;
throwing into it before it starts propagates the exception (unstarted
generator semantics). -/
def c1coroA : Except Exc Val → CoroRun
  | .ok _ => .returned (.int 7)
  | .error e => .raised e

def c1wA : World := mkWorld [(0, ⟨.futureWaiting, [], some ⟨c1coroA, Option.none⟩⟩)]

/-- A coroutine body that, when started normally, yields future 1 and
then echoes the next resume; throwing into it before it starts propagates
the exception. -/
def c1coroB : Except Exc Val → CoroRun
  | .ok _ => .yielded 1 idleCoro
  | .error e => .raised e

def c1wB : World :=
  mkWorld [(0, ⟨.futureWaiting, [], some ⟨c1coroB, Option.none⟩⟩), (1, pendingFut)]

/-- C1 fails on the code: `Task.send` checks `isinstance(self._state,
_FutureCancelled)` but `Task.cancel` puts the task in `_TaskCancelling`
(a `_FutureWaiting` subclass), so the check never fires and the first
step after a pre-step `cancel()` does NOT deliver the cancellation.
Scenario A: the computation is resumed with a plain `send(None)` and the
"cancelled" task COMPLETES with its value 7 — `read()` returns 7 instead
of signalling `OperationCancelled` and `is_cancelled()` is false.
Scenario B: with a computation that yields a pending handle, the first
step resumes it normally, the task stays send-ready (state
`_TaskCancelling`), and the very next scheduler step violates the code's
own `assert awaited_on.done(), "Do not send to not ready tasks."`. -/
theorem c1_cancel_before_first_step_code_bug :
    ((cancelObj c1wA 0).1 = true
      ∧ (Task.send (cancelObj c1wA 0).2 0).1 = some Exc.stopIteration
      ∧ Future.result (Task.send (cancelObj c1wA 0).2 0).2 0 = .ok (.int 7)
      ∧ Future.cancelled (Task.send (cancelObj c1wA 0).2 0).2 0 = false)
  ∧ ((cancelObj c1wB 0).1 = true
      ∧ (Task.send (cancelObj c1wB 0).2 0).1 = Option.none
      ∧ Task.isSendReady (Task.send (cancelObj c1wB 0).2 0).2 0 = true
      ∧ (Task.send (Task.send (cancelObj c1wB 0).2 0).2 0).1
          = some Exc.assertionError) :=
  ⟨⟨rfl, rfl, rfl, rfl⟩, ⟨rfl, rfl, rfl, rfl⟩⟩

/-! ### C6 -/

theorem setResult_error {w : World} {fid : Nat} {v : Val} {e : Exc}
    (h : Future.setResult w fid v = .error e) : e = Exc.invalidStateError := by
  match hf : w.find fid with
  | Option.none =>
    simp only [Future.setResult, hf, Except.error.injEq] at h
    exact h.symm
  | some d =>
    by_cases hd : d.state.isDone = true
    · simp only [Future.setResult, hf, hd, if_true, Except.error.injEq] at h
      exact h.symm
    · simp [Future.setResult, hf, hd] at h

theorem setException_error {w : World} {fid : Nat} {e0 : Exc} {e : Exc}
    (h : Future.setException w fid e0 = .error e) : e = Exc.invalidStateError := by
  match hf : w.find fid with
  | Option.none =>
    simp only [Future.setException, hf, Except.error.injEq] at h
    exact h.symm
  | some d =>
    by_cases hd : d.state.isDone = true
    · simp only [Future.setException, hf, hd, if_true, Except.error.injEq] at h
      exact h.symm
    · simp [Future.setException, hf, hd] at h

theorem sres_branch_error {w : World} {fid : Nat} {v : Val} {e : Exc} {w2 : World}
    (h : (match Future.setResult w fid v with
          | .ok w1 => ((some Exc.stopIteration : Option Exc), w1)
          | .error e2 => (some e2, w)) = (some e, w2)) :
    e = Exc.stopIteration ∨ e = Exc.invalidStateError := by
  match hsr : Future.setResult w fid v with
  | .ok w1 =>
    simp only [hsr, Prod.mk.injEq, Option.some.injEq] at h
    exact Or.inl h.1.symm
  | .error e2 =>
    simp only [hsr, Prod.mk.injEq, Option.some.injEq] at h
    exact Or.inr (h.1 ▸ setResult_error hsr)

theorem sexc_branch_error {w : World} {fid : Nat} {e0 : Exc} {e : Exc} {w2 : World}
    (h : (match Future.setException w fid e0 with
          | .ok w1 => ((some Exc.stopIteration : Option Exc), w1)
          | .error e2 => (some e2, w)) = (some e, w2)) :
    e = Exc.stopIteration ∨ e = Exc.invalidStateError := by
  match hse : Future.setException w fid e0 with
  | .ok w1 =>
    simp only [hse, Prod.mk.injEq, Option.some.injEq] at h
    exact Or.inl h.1.symm
  | .error e2 =>
    simp only [hse, Prod.mk.injEq, Option.some.injEq] at h
    exact Or.inr (h.1 ▸ setException_error hse)

/-- Any exception raised out of one `_step_coro` call is `StopIteration`
or `InvalidStateError`. -/
theorem stepCoro_pair_error {w : World} {fid : Nat} {d : FutureData} {td : TaskData}
    {input : Except Exc Val} {e : Exc} {w2 : World}
    (h : Task.stepCoro w fid d td input = (some e, w2)) :
    e = Exc.stopIteration ∨ e = Exc.invalidStateError := by
  unfold Task.stepCoro at h
  by_cases hd : d.state.isDone = true
  · simp only [hd, if_true, Prod.mk.injEq, Option.some.injEq] at h
    exact Or.inl h.1.symm
  · simp only [hd, Bool.false_eq_true, if_false] at h
    match hrun : td.coro input with
    | .yielded a k =>
      simp only [hrun] at h
      simp at h
    | .returned v =>
      simp only [hrun] at h
      exact sres_branch_error h
    | .raised e3 =>
      cases e3 with
      | stopIteration =>
        simp only [hrun] at h
        exact sres_branch_error h
      | cancelledError =>
        simp only [hrun, Prod.mk.injEq, Option.some.injEq] at h
        exact Or.inl h.1.symm
      | invalidStateError =>
        simp only [hrun] at h
        exact sexc_branch_error h
      | assertionError =>
        simp only [hrun] at h
        exact sexc_branch_error h
      | valueError =>
        simp only [hrun] at h
        exact sexc_branch_error h
      | userError n =>
        simp only [hrun] at h
        exact sexc_branch_error h

/-- Any exception raised out of one `Task.send` call is `StopIteration`,
`AssertionError` (the runtime's own asserts), or `InvalidStateError`. -/
theorem send_pair_error {w : World} {t : Nat} {e : Exc} {w2 : World}
    (h : Task.send w t = (some e, w2)) :
    e = Exc.stopIteration ∨ e = Exc.assertionError ∨ e = Exc.invalidStateError := by
  unfold Task.send at h
  match hf : w.find t with
  | Option.none =>
    simp only [hf, Prod.mk.injEq, Option.some.injEq] at h
    exact Or.inr (Or.inl h.1.symm)
  | some d =>
    simp only [hf] at h
    match ht : d.task with
    | Option.none =>
      simp only [ht, Prod.mk.injEq, Option.some.injEq] at h
      exact Or.inr (Or.inl h.1.symm)
    | some td =>
      simp only [ht] at h
      by_cases hc : d.state = FState.futureCancelled
      · simp only [hc, if_true] at h
        rcases stepCoro_pair_error h with h1 | h1
        · exact Or.inl h1
        · exact Or.inr (Or.inr h1)
      · simp only [hc, if_false] at h
        match ha : td.awaitedOn with
        | Option.none =>
          simp only [ha] at h
          rcases stepCoro_pair_error h with h1 | h1
          · exact Or.inl h1
          · exact Or.inr (Or.inr h1)
        | some a =>
          simp only [ha] at h
          by_cases hda : Future.done w a = true
          · simp only [hda, if_true] at h
            match hr : Future.result w a with
            | .ok v =>
              simp only [hr] at h
              rcases stepCoro_pair_error h with h1 | h1
              · exact Or.inl h1
              · exact Or.inr (Or.inr h1)
            | .error e4 =>
              simp only [hr] at h
              rcases stepCoro_pair_error h with h1 | h1
              · exact Or.inl h1
              · exact Or.inr (Or.inr h1)
          · simp only [hda, Bool.false_eq_true, if_false, Prod.mk.injEq,
              Option.some.injEq] at h
            exact Or.inr (Or.inl h.1.symm)

/-- Any exception escaping `_step_send_ready_tasks` is an assert failure,
`InvalidStateError`, or `ValueError` from `list.remove` — never a
computation-raised error (those are captured in the failing task). -/
theorem stepTasksAux_error :
    ∀ (l : List Nat) (w : World) {e : Exc} {w2 : World},
    stepTasksAux w l = (some e, w2) →
    e = Exc.assertionError ∨ e = Exc.invalidStateError ∨ e = Exc.valueError := by
  intro l
  induction l with
  | nil =>
    intro w e w2 h
    simp [stepTasksAux] at h
  | cons t rest ih =>
    intro w e w2 h
    unfold stepTasksAux at h
    match hs : Task.send w t with
    | (Option.none, w1) =>
      simp only [hs] at h
      exact ih _ h
    | (some e1, w1) =>
      cases e1 with
      | stopIteration =>
        simp only [hs] at h
        match hrm : listRemove w1.allTasks t with
        | some l2 =>
          simp only [hrm] at h
          exact ih _ h
        | Option.none =>
          simp only [hrm, Prod.mk.injEq, Option.some.injEq] at h
          exact Or.inr (Or.inr h.1.symm)
      | assertionError =>
        simp only [hs, Prod.mk.injEq, Option.some.injEq] at h
        exact Or.inl h.1.symm
      | invalidStateError =>
        simp only [hs, Prod.mk.injEq, Option.some.injEq] at h
        exact Or.inr (Or.inl h.1.symm)
      | cancelledError => exact absurd (send_pair_error hs) (by decide)
      | valueError => exact absurd (send_pair_error hs) (by decide)
      | userError n => exact absurd (send_pair_error hs) (by simp)

/-- Any exception escaping `_set_getch_result` is an assert failure
(closed terminal) or `InvalidStateError`. -/
theorem setGetchResult_error {w : World} {e : Exc} {w2 : World}
    (h : EventLoop.setGetchResult w = GetchStep.stepped (some e) w2) :
    e = Exc.assertionError ∨ e = Exc.invalidStateError := by
  unfold EventLoop.setGetchResult at h
  by_cases hscr : w.stdscr = true
  · simp only [hscr, Bool.not_true, Bool.false_eq_true, if_false] at h
    match hin : w.inputs with
    | [] =>
      simp only [hin] at h
      exact GetchStep.noConfusion h
    | i :: rest =>
      simp only [hin] at h
      cases i with
      | none => simp at h
      | some n =>
        dsimp only at h
        match hg : w.getchFuture with
        | Option.none =>
          simp only [hg] at h
          simp at h
        | some f =>
          simp only [hg] at h
          split at h
          · simp at h
          · rename_i e2 heq
            simp only [GetchStep.stepped.injEq, Option.some.injEq] at h
            exact Or.inr (h.1 ▸ setResult_error heq)
  · have hscr2 : w.stdscr = false := by
      revert hscr
      cases w.stdscr <;> simp
    simp only [hscr2, Bool.not_false, if_true, GetchStep.stepped.injEq,
      Option.some.injEq] at h
    exact Or.inl h.1.symm

theorem stepSendReadyTasks_error {w : World} {e : Exc} {w2 : World}
    (h : EventLoop.stepSendReadyTasks w = (some e, w2)) :
    e = Exc.assertionError ∨ e = Exc.invalidStateError ∨ e = Exc.valueError :=
  stepTasksAux_error _ _ h

/-- Any crash of the run loop is an assert failure, `InvalidStateError`,
or `ValueError` — never an error raised by a computation. -/
theorem runAux_crashed :
    ∀ (fuel : Nat) (w : World) (target : Nat) {e : Exc} {w2 : World},
    runUntilCompleteAux fuel w target = RunResult.crashed e w2 →
    e = Exc.assertionError ∨ e = Exc.invalidStateError ∨ e = Exc.valueError := by
  intro fuel
  induction fuel with
  | zero =>
    intro w target e w2 h
    exact RunResult.noConfusion h
  | succ fuel ih =>
    intro w target e w2 h
    unfold runUntilCompleteAux at h
    dsimp only at h
    split at h
    · exact RunResult.noConfusion h
    · rename_i e1 w3 heq
      injection h with h1 h2
      subst h1
      split at heq
      · split at heq
        · exact Option.noConfusion heq
        · rename_i r w4 heq2
          injection heq with heq3
          rw [Prod.mk.injEq] at heq3
          obtain ⟨hr, hw⟩ := heq3
          subst hr
          rcases setGetchResult_error heq2 with h5 | h5
          · exact Or.inl h5
          · exact Or.inr (Or.inl h5)
      · injection heq with heq3
        exact stepSendReadyTasks_error heq3
    · split at h
      · exact RunResult.noConfusion h
      · split at h
        · exact RunResult.noConfusion h
        · exact ih _ _ h

/-- The run loop returns a result only when the target awaitable is done,
and that result is the target's `result()`. -/
theorem runAux_completed :
    ∀ (fuel : Nat) (w : World) (target : Nat) {r : Except Exc Val} {w2 : World},
    runUntilCompleteAux fuel w target = RunResult.completed r w2 →
    Future.done w2 target = true ∧ r = Future.result w2 target := by
  intro fuel
  induction fuel with
  | zero =>
    intro w target r w2 h
    exact RunResult.noConfusion h
  | succ fuel ih =>
    intro w target r w2 h
    unfold runUntilCompleteAux at h
    dsimp only at h
    split at h
    · exact RunResult.noConfusion h
    · exact RunResult.noConfusion h
    · split at h
      · rename_i hdone
        injection h with h1 h2
        subst h2
        exact ⟨hdone, h1.symm⟩
      · split at h
        · exact RunResult.noConfusion h
        · exact ih _ _ h

/-- The run loop breaks out early (returning `None`) only when a stop was
requested, and only while the target is not done. -/
theorem runAux_stopped :
    ∀ (fuel : Nat) (w : World) (target : Nat) {w2 : World},
    runUntilCompleteAux fuel w target = RunResult.stopped w2 →
    w2.isStopping = true ∧ Future.done w2 target = false := by
  intro fuel
  induction fuel with
  | zero =>
    intro w target w2 h
    exact RunResult.noConfusion h
  | succ fuel ih =>
    intro w target w2 h
    unfold runUntilCompleteAux at h
    dsimp only at h
    split at h
    · exact RunResult.noConfusion h
    · exact RunResult.noConfusion h
    · split at h
      · exact RunResult.noConfusion h
      · split at h
        · rename_i hdone hstop
          injection h with h1
          subst h1
          exact ⟨hstop, by simpa using hdone⟩
        · exact ih _ _ h

theorem setException_ok_parts {w : World} {fid : Nat} {d : FutureData} (e : Exc)
    (h : w.find fid = some d) (hnd : d.state.isDone = false) :
    Future.setException w fid e
      = .ok (Future.callDoneCallbacks
          (w.setFut fid { d with state := FState.futureException e }) fid)
    ∧ (Future.callDoneCallbacks
          (w.setFut fid { d with state := FState.futureException e }) fid).find fid
      = some { d with state := FState.futureException e } := by
  constructor
  · simp only [Future.setException, h, hnd, Bool.false_eq_true, if_false]
  · exact find_callDoneCallbacks (lookupFut_update_self h)

/-- A ready task whose computation raises an error on its step: `send`
captures the error into the task's `_FutureException` state and raises
only `StopIteration` to the scheduler — the computation's error itself
never escapes the step. -/
theorem send_raised_contained (w : World) (t : Nat) (d : FutureData) (td : TaskData)
    (e : Exc) (h : w.find t = some d) (ht : d.task = some td)
    (hs : d.state = FState.futureWaiting) (ha : td.awaitedOn = Option.none)
    (hrun : td.coro (.ok .none) = CoroRun.raised e)
    (hne1 : e ≠ Exc.cancelledError) (hne2 : e ≠ Exc.stopIteration) :
    ∃ w1, Task.send w t = (some Exc.stopIteration, w1)
      ∧ ∃ d1, w1.find t = some d1 ∧ d1.state = FState.futureException e := by
  have hnd : d.state.isDone = false := by rw [hs]; rfl
  have hc : ¬(d.state = FState.futureCancelled) := by rw [hs]; simp
  cases e with
  | cancelledError => exact absurd rfl hne1
  | stopIteration => exact absurd rfl hne2
  | invalidStateError =>
    obtain ⟨hse, hfind⟩ := setException_ok_parts Exc.invalidStateError h hnd
    refine ⟨Future.callDoneCallbacks
        (w.setFut t { d with state := FState.futureException Exc.invalidStateError }) t,
      ?_, _, hfind, rfl⟩
    simp only [Task.send, h, ht, hc, if_false, ha, Task.stepCoro, hnd,
      Bool.false_eq_true, hrun, hse]
  | assertionError =>
    obtain ⟨hse, hfind⟩ := setException_ok_parts Exc.assertionError h hnd
    refine ⟨Future.callDoneCallbacks
        (w.setFut t { d with state := FState.futureException Exc.assertionError }) t,
      ?_, _, hfind, rfl⟩
    simp only [Task.send, h, ht, hc, if_false, ha, Task.stepCoro, hnd,
      Bool.false_eq_true, hrun, hse]
  | valueError =>
    obtain ⟨hse, hfind⟩ := setException_ok_parts Exc.valueError h hnd
    refine ⟨Future.callDoneCallbacks
        (w.setFut t { d with state := FState.futureException Exc.valueError }) t,
      ?_, _, hfind, rfl⟩
    simp only [Task.send, h, ht, hc, if_false, ha, Task.stepCoro, hnd,
      Bool.false_eq_true, hrun, hse]
  | userError n =>
    obtain ⟨hse, hfind⟩ := setException_ok_parts (Exc.userError n) h hnd
    refine ⟨Future.callDoneCallbacks
        (w.setFut t { d with state := FState.futureException (Exc.userError n) }) t,
      ?_, _, hfind, rfl⟩
    simp only [Task.send, h, ht, hc, if_false, ha, Task.stepCoro, hnd,
      Bool.false_eq_true, hrun, hse]

/-- C6: the scheduler loop never lets a task's failure abort it.  (1) A
ready task whose computation raises an error has the error captured into
its `_FutureException` state; `send` reports only `StopIteration`, which
`_step_send_ready_tasks` catches.  (2) Any exception that does escape the
`run_until_complete` loop is an assert failure, `InvalidStateError`, or
`ValueError` (`list.remove`) — programming-error signals, never a
computation-raised error.  (3) The loop returns a result only when the
target awaitable is done, with the target's own `result()`.  (4) It
breaks out early (returning `None`) only when a stop was recorded, and
only while the target is not done.  (`EventLoop.runUntilComplete` merely
resets `_is_stopping` in the `finally` clause around
`runUntilCompleteAux`.) -/
theorem c6_failure_containment :
    (∀ (w : World) (t : Nat) (d : FutureData) (td : TaskData) (e : Exc),
      w.find t = some d → d.task = some td → d.state = FState.futureWaiting →
      td.awaitedOn = Option.none → td.coro (.ok .none) = CoroRun.raised e →
      e ≠ Exc.cancelledError → e ≠ Exc.stopIteration →
      ∃ w1, Task.send w t = (some Exc.stopIteration, w1)
        ∧ ∃ d1, w1.find t = some d1 ∧ d1.state = FState.futureException e)
  ∧ (∀ (fuel : Nat) (w : World) (target : Nat) (e : Exc) (w2 : World),
      runUntilCompleteAux fuel w target = RunResult.crashed e w2 →
      e = Exc.assertionError ∨ e = Exc.invalidStateError ∨ e = Exc.valueError)
  ∧ (∀ (fuel : Nat) (w : World) (target : Nat) (r : Except Exc Val) (w2 : World),
      runUntilCompleteAux fuel w target = RunResult.completed r w2 →
      Future.done w2 target = true ∧ r = Future.result w2 target)
  ∧ (∀ (fuel : Nat) (w : World) (target : Nat) (w2 : World),
      runUntilCompleteAux fuel w target = RunResult.stopped w2 →
      w2.isStopping = true ∧ Future.done w2 target = false) :=
  ⟨send_raised_contained,
    fun fuel w target _ _ h => runAux_crashed fuel w target h,
    fun fuel w target _ _ h => runAux_completed fuel w target h,
    fun fuel w target _ h => runAux_stopped fuel w target h⟩

/-- A coroutine body whose first resume raises an opaque user error. -/
def c6coro : Except Exc Val → CoroRun
  | .ok _ => .raised (.userError 3)
  | .error e => .raised e

def c6task : FutureData := ⟨.futureWaiting, [], some ⟨c6coro, Option.none⟩⟩

def c6w : World := mkWorld [(0, c6task)]

/-- Witness for C6 at a concrete task whose computation raises a user
error on its first step. -/
theorem c6_failure_containment_witness :
    (c6w.find 0 = some c6task ∧ c6task.task = some ⟨c6coro, Option.none⟩
      ∧ Exc.userError 3 ≠ Exc.cancelledError ∧ Exc.userError 3 ≠ Exc.stopIteration)
  ∧ (∃ w1, Task.send c6w 0 = (some Exc.stopIteration, w1)
      ∧ ∃ d1, w1.find 0 = some d1
        ∧ d1.state = FState.futureException (Exc.userError 3)) :=
  ⟨⟨rfl, rfl, by decide, by decide⟩,
    c6_failure_containment.1 c6w 0 c6task ⟨c6coro, Option.none⟩ (Exc.userError 3)
      rfl rfl rfl rfl rfl (by decide) (by decide)⟩
